import Mathlib

/-!
Shallow embedding of the Quadrium event bus (`src/Controller/EventManager.rs`,
`src/Controller/mod.rs`) and of the audio metadata collaborator
(`src/audio_reader/mod.rs`).

Modelling conventions:
* Rust `Vec` becomes `List`; `Vec::push` is `++ [x]`; `Vec::clear` is the
  function `clearEvents` returning `[]`.
* The manager's mutexes serialize access; the embedding is the resulting
  sequential state-transformer semantics.  `Condvar::notify_one` is modelled
  by an instrumentation counter `m_notify_count` incremented at each call.
* A registered `FnMut` closure is modelled by a `Callback`: an identity tag
  `id` (to speak about its invocations) together with `run`, the list of
  events one invocation with a given event pushes into the temporary queue
  via `push_event_in_tmp_queue` (the only effect a listener has on the bus
  state).
* `update` additionally returns the invocation trace: the ordered list of
  `(registered kind, callback id, event)` triples, one per callback call the
  nested dispatch loop performs.
-/

namespace Quadrium

/-- The enum `QuAvailableTypeInEvent` of `src/Controller/mod.rs`. -/
inductive QuAvailableTypeInEvent
  | String
  | Float
  | Uint8
  | Uint32
  | Uint64
  | Int8
  | Int32
  | Int64
deriving DecidableEq, Repr

/-- The enum `QuEventType` of `src/Controller/mod.rs`. -/
inductive QuEventType
  | EAskRetrieveMusicDirectory
  | EAskRetrieveMusicInformation
  | EAskReadMusic
  | EAskOperationPlaylist
  | EAskTryRetrievePlayList
  | EMusicDirectoryRetrieved
  | EMusicInformationRetrieved
  | EReadMusicState
  | EOperationPlaylistState
  | EPlaylistRetrieved
deriving DecidableEq, Repr

/-- `QuEvent` of `EventManager.rs`: an event is its kind `m_event_type`
together with its payload `m_event_arg` (a shared, read-only
`dyn QuInformationData`; the payload type is a parameter here). -/
structure QuEvent (EventType Payload : Type) where
  m_event_type : EventType
  m_event_arg : Payload
deriving DecidableEq

/-- A registered listener: the `Arc<Mutex<dyn FnMut(&QuEvent)>>` of the
registry.  `id` tags the closure so its invocations can be traced; `run e`
is the list of events the closure pushes into the temporary queue when
invoked with `e`. -/
structure Callback (EventType Payload : Type) where
  id : Nat
  run : QuEvent EventType Payload → List (QuEvent EventType Payload)

/-- One recorded callback invocation of the dispatch loop:
`(kind the callback is registered under, callback id, event passed)`. -/
abbrev Invocation (EventType Payload : Type) :=
  EventType × Nat × QuEvent EventType Payload

/-- State of `EventManager` (`EventManager.rs`, lines 173-191).
`m_notify_count` instruments the `Condvar::notify_one` calls on
`m_need_update`'s condition variable. -/
structure EventManager (EventType Payload : Type) where
  m_event_list : List (QuEvent EventType Payload)
  m_register_event_listeners : List (EventType × List (Callback EventType Payload))
  m_need_update : Bool
  m_notify_count : Nat
  m_stop_update : Bool
  m_tmp_event_queue : List (QuEvent EventType Payload)

variable {EventType Payload : Type}

/-- `Vec::clear`: the queue it is applied to holds nothing afterwards. -/
def clearEvents (_l : List (QuEvent EventType Payload)) : List (QuEvent EventType Payload) :=
  []

/-- `EventManager::push_event` (lines 220-228): push the event on
`m_event_list`, set the wake flag, notify the condition variable. -/
def EventManager.push_event (self : EventManager EventType Payload)
    (event : QuEvent EventType Payload) : EventManager EventType Payload :=
  { self with
    m_event_list := self.m_event_list ++ [event]
    m_need_update := true
    m_notify_count := self.m_notify_count + 1 }

/-- The registry-insertion loop of `EventManager::register_listener`
(lines 239-257): scan the buckets in order, append the callback to the first
bucket whose kind equals `event_type` (then `break`); if no bucket matches,
push a fresh bucket holding only this callback at the end. -/
def insertListener (listeners : List (EventType × List (Callback EventType Payload)))
    (event_type : EventType) (callback : Callback EventType Payload)
    [DecidableEq EventType] : List (EventType × List (Callback EventType Payload)) :=
  match listeners with
  | [] => [(event_type, [callback])]
  | bucket :: rest =>
    if bucket.1 = event_type then
      (bucket.1, bucket.2 ++ [callback]) :: rest
    else
      bucket :: insertListener rest event_type callback

/-- `EventManager::register_listener` (lines 236-264): insert the callback
into the registry, then set the wake flag and notify the condition
variable. -/
def EventManager.register_listener [DecidableEq EventType]
    (self : EventManager EventType Payload) (event_type : EventType)
    (callback : Callback EventType Payload) : EventManager EventType Payload :=
  { self with
    m_register_event_listeners :=
      insertListener self.m_register_event_listeners event_type callback
    m_need_update := true
    m_notify_count := self.m_notify_count + 1 }

/-- `push_event_in_tmp_queue` (lines 206-209): push the event on the
temporary queue of the manager; nothing else is touched. -/
def push_event_in_tmp_queue (event : QuEvent EventType Payload)
    (self : EventManager EventType Payload) : EventManager EventType Payload :=
  { self with m_tmp_event_queue := self.m_tmp_event_queue ++ [event] }

/-- `EventManager::stop` (lines 343-346): set the stop flag. -/
def EventManager.stop (self : EventManager EventType Payload) :
    EventManager EventType Payload :=
  { self with m_stop_update := true }

/-- The innermost two loops of `EventManager::update` for one event and one
registry bucket (lines 285-297): when the event's kind equals the bucket's
kind, every callback of the bucket is invoked in order with the event. -/
def bucketInvocations [DecidableEq EventType] (event : QuEvent EventType Payload)
    (bucket : EventType × List (Callback EventType Payload)) :
    List (Invocation EventType Payload) :=
  if event.m_event_type = bucket.1 then
    bucket.2.map (fun cb => (bucket.1, cb.id, event))
  else
    []

/-- The events those same callback invocations push into the temporary
queue, in invocation order. -/
def bucketPushes [DecidableEq EventType] (event : QuEvent EventType Payload)
    (bucket : EventType × List (Callback EventType Payload)) :
    List (QuEvent EventType Payload) :=
  if event.m_event_type = bucket.1 then
    (bucket.2.map (fun cb => cb.run event)).flatten
  else
    []

/-- Invocations performed for one event across the whole registry snapshot,
in bucket order (the middle loop of `update`). -/
def eventInvocations [DecidableEq EventType]
    (listeners : List (EventType × List (Callback EventType Payload)))
    (event : QuEvent EventType Payload) : List (Invocation EventType Payload) :=
  listeners.flatMap (bucketInvocations event)

/-- Temporary-queue pushes performed for one event across the whole registry
snapshot, in invocation order. -/
def eventPushes [DecidableEq EventType]
    (listeners : List (EventType × List (Callback EventType Payload)))
    (event : QuEvent EventType Payload) : List (QuEvent EventType Payload) :=
  listeners.flatMap (bucketPushes event)

/-- The full nested dispatch loop of `update` (lines 283-298) over the
pending-queue snapshot, in submission order. -/
def dispatchInvocations [DecidableEq EventType]
    (listeners : List (EventType × List (Callback EventType Payload)))
    (events : List (QuEvent EventType Payload)) : List (Invocation EventType Payload) :=
  events.flatMap (eventInvocations listeners)

/-- All events pushed into the temporary queue by the callbacks of one full
dispatch batch, in invocation order. -/
def dispatchPushes [DecidableEq EventType]
    (listeners : List (EventType × List (Callback EventType Payload)))
    (events : List (QuEvent EventType Payload)) : List (QuEvent EventType Payload) :=
  events.flatMap (eventPushes listeners)

/-- `EventManager::update` (lines 276-308): snapshot `m_event_list` and the
registry, run the nested dispatch loop (whose temporary-queue pushes land in
`m_tmp_event_queue`), clear the live `m_event_list`, copy the temporary
queue into it in order, clear the temporary queue.  Also returns the
invocation trace of the batch. -/
def EventManager.update [DecidableEq EventType]
    (self : EventManager EventType Payload) :
    EventManager EventType Payload × List (Invocation EventType Payload) :=
  let event_list := self.m_event_list
  let listeners := self.m_register_event_listeners
  let invocations := dispatchInvocations listeners event_list
  let pushes := dispatchPushes listeners event_list
  let tmp_at_merge := self.m_tmp_event_queue ++ pushes
  let cleared := clearEvents self.m_event_list
  ({ self with
      m_event_list := cleared ++ tmp_at_merge
      m_tmp_event_queue := clearEvents tmp_at_merge },
   invocations)

/-- `EventManager::update` interleaved with direct `push_event` calls that
land on the live `m_event_list` after the snapshot of line 281 and before
the `clear` of line 299 (`extra`, in arrival order).  The snapshot, the
dispatch loop and the end-of-batch merge are those of `update`; the
mid-batch pushes only ever sit in the live list that line 299 clears. -/
def EventManager.update_with_midbatch_push [DecidableEq EventType]
    (self : EventManager EventType Payload)
    (extra : List (QuEvent EventType Payload)) :
    EventManager EventType Payload × List (Invocation EventType Payload) :=
  let event_list := self.m_event_list
  let listeners := self.m_register_event_listeners
  let invocations := dispatchInvocations listeners event_list
  let pushes := dispatchPushes listeners event_list
  let mid := extra.foldl (fun st e => st.push_event e) self
  let tmp_at_merge := mid.m_tmp_event_queue ++ pushes
  let cleared := clearEvents mid.m_event_list
  ({ mid with
      m_event_list := cleared ++ tmp_at_merge
      m_tmp_event_queue := clearEvents tmp_at_merge },
   invocations)

/-- First-match lookup of the callbacks registered for a kind: the bucket
the registration loop of `register_listener` would append to. -/
def listenersFor [DecidableEq EventType]
    (event_type : EventType)
    (listeners : List (EventType × List (Callback EventType Payload))) :
    List (Callback EventType Payload) :=
  match listeners with
  | [] => []
  | bucket :: rest =>
    if bucket.1 = event_type then bucket.2 else listenersFor event_type rest

/-- `AudioInformation` of `src/audio_reader/mod.rs`.  `m_rate` is a `u32`
and `m_channel_count`, `m_bits_per_sample` are `u8` in the source; only
their decimal rendering matters here, so they are carried as `Nat`. -/
structure AudioInformation where
  m_str_music_name : String
  m_str_music_type : String
  m_str_artist_name : String
  m_str_tracknumber : String
  m_str_album : String
  m_str_date : String
  m_str_duration : String
  m_rate : Nat
  m_channel_count : Nat
  m_bits_per_sample : Nat

/-- `AudioInformation::convert_to_key_map` (`audio_reader/mod.rs` lines
45-60): ten successive `key_map.push` calls, every type tag `String`,
numeric fields rendered with `to_string`. -/
def AudioInformation.convert_to_key_map (self : AudioInformation) :
    List (String × QuAvailableTypeInEvent × String) :=
  let key_map : List (String × QuAvailableTypeInEvent × String) := []
  let key_map := key_map ++ [("music_name", QuAvailableTypeInEvent.String, self.m_str_music_name)]
  let key_map := key_map ++ [("music_type", QuAvailableTypeInEvent.String, self.m_str_music_type)]
  let key_map := key_map ++ [("artist_name", QuAvailableTypeInEvent.String, self.m_str_artist_name)]
  let key_map := key_map ++ [("track_number", QuAvailableTypeInEvent.String, self.m_str_tracknumber)]
  let key_map := key_map ++ [("album", QuAvailableTypeInEvent.String, self.m_str_album)]
  let key_map := key_map ++ [("date", QuAvailableTypeInEvent.String, self.m_str_date)]
  let key_map := key_map ++ [("duration", QuAvailableTypeInEvent.String, self.m_str_duration)]
  let key_map := key_map ++ [("track_rate", QuAvailableTypeInEvent.String, toString self.m_rate)]
  let key_map := key_map ++ [("channel_count", QuAvailableTypeInEvent.String, toString self.m_channel_count)]
  let key_map := key_map ++ [("bits_per_sample", QuAvailableTypeInEvent.String, toString self.m_bits_per_sample)]
  key_map

/-- Body of the `EAskRetrieveMusicInformation` listener registered by
`register_event_listeners` (`audio_reader/mod.rs` lines 71-92), as a
function of the payload's key map, parameterized by the file reading
performed by `FlacReader::read_information`.  Returns the list of file
paths read and the list of `(kind, payload)` events pushed into the
temporary queue: the listener first converts the payload, returns at once
when the field count differs from one, and otherwise reads the file named
by the single field's value and defers an `EMusicInformationRetrieved`
event carrying the resulting `AudioInformation`. -/
def audio_listener_body (read_information : String → AudioInformation)
    (argument : List (String × QuAvailableTypeInEvent × String)) :
    List String × List (QuEventType × AudioInformation) :=
  if argument.length ≠ 1 then
    ([], [])
  else
    match argument[0]? with
    | none => ([], [])
    | some arg0 =>
      let audio_information := read_information arg0.2.2
      ([arg0.2.2],
       [(QuEventType.EMusicInformationRetrieved, audio_information)])

/-! Helper lemmas about the dispatch loop. -/

/-- Every invocation recorded for one event carries that event. -/
theorem eventInvocations_event [DecidableEq EventType]
    {listeners : List (EventType × List (Callback EventType Payload))}
    {e : QuEvent EventType Payload} {p : Invocation EventType Payload}
    (hp : p ∈ eventInvocations listeners e) : p.2.2 = e := by
  obtain ⟨b, _hb, hbm⟩ := List.mem_flatMap.mp hp
  unfold bucketInvocations at hbm
  by_cases h : e.m_event_type = b.1
  · rw [if_pos h] at hbm
    obtain ⟨cb, _hcb, heq⟩ := List.mem_map.mp hbm
    rw [← heq]
  · rw [if_neg h] at hbm
    simp at hbm

/-- Every invocation of a dispatch batch carries an event of the
pending-queue snapshot. -/
theorem invocation_event_mem [DecidableEq EventType]
    {listeners : List (EventType × List (Callback EventType Payload))}
    {events : List (QuEvent EventType Payload)} {p : Invocation EventType Payload}
    (hp : p ∈ dispatchInvocations listeners events) : p.2.2 ∈ events := by
  obtain ⟨e, he, hmem⟩ := List.mem_flatMap.mp hp
  rw [eventInvocations_event hmem]
  exact he

/-- Membership in the invocation trace of a dispatch batch, characterized:
a callback is invoked with an event exactly when the event is in the
snapshot and the callback sits in a registry bucket whose kind equals the
event's kind. -/
theorem mem_dispatchInvocations [DecidableEq EventType]
    {listeners : List (EventType × List (Callback EventType Payload))}
    {events : List (QuEvent EventType Payload)}
    {K : EventType} {i : Nat} {ev : QuEvent EventType Payload} :
    (K, i, ev) ∈ dispatchInvocations listeners events ↔
      ev ∈ events ∧ ev.m_event_type = K ∧
        ∃ cbs, (K, cbs) ∈ listeners ∧ i ∈ cbs.map Callback.id := by
  simp only [dispatchInvocations, eventInvocations, List.mem_flatMap]
  constructor
  · rintro ⟨e, he, b, hb, hmem⟩
    unfold bucketInvocations at hmem
    by_cases h : e.m_event_type = b.1
    · rw [if_pos h] at hmem
      obtain ⟨cb, hcb, heq⟩ := List.mem_map.mp hmem
      simp only [Prod.mk.injEq] at heq
      obtain ⟨hK, hi, hev⟩ := heq
      subst hK
      subst hev
      subst hi
      refine ⟨he, h, b.2, ?_, List.mem_map.mpr ⟨cb, hcb, rfl⟩⟩
      rw [← Prod.mk.eta (p := b)] at hb
      exact hb
    · rw [if_neg h] at hmem
      simp at hmem
  · rintro ⟨hev, hkind, cbs, hcbs, hi⟩
    refine ⟨ev, hev, (K, cbs), hcbs, ?_⟩
    unfold bucketInvocations
    rw [if_pos hkind]
    obtain ⟨cb, hcb, hid⟩ := List.mem_map.mp hi
    exact List.mem_map.mpr ⟨cb, hcb, by rw [hid]⟩

/-- Filtering one event's invocations by a target event keeps all of them
or none, according to whether the events coincide. -/
theorem filter_eventInvocations [DecidableEq EventType] [DecidableEq Payload]
    (listeners : List (EventType × List (Callback EventType Payload)))
    (e E : QuEvent EventType Payload) :
    (eventInvocations listeners e).filter (fun p => p.2.2 = E)
      = if e = E then eventInvocations listeners e else [] := by
  by_cases h : e = E
  · rw [if_pos h]
    apply List.filter_eq_self.mpr
    intro p hp
    exact decide_eq_true (by rw [eventInvocations_event hp, h])
  · rw [if_neg h]
    apply List.filter_eq_nil_iff.mpr
    intro p hp
    simp only [decide_eq_true_eq]
    rw [eventInvocations_event hp]
    exact h

/-- Filtering a whole batch's trace by a target event yields that event's
invocation block once per occurrence in the snapshot. -/
theorem filter_dispatchInvocations [DecidableEq EventType] [DecidableEq Payload]
    (listeners : List (EventType × List (Callback EventType Payload)))
    (E : QuEvent EventType Payload) :
    ∀ events : List (QuEvent EventType Payload),
      (dispatchInvocations listeners events).filter (fun p => p.2.2 = E)
        = (List.replicate (events.count E) (eventInvocations listeners E)).flatten := by
  intro events
  induction events with
  | nil => simp [dispatchInvocations]
  | cons x xs ih =>
    have hstep : dispatchInvocations listeners (x :: xs)
        = eventInvocations listeners x ++ dispatchInvocations listeners xs := by
      simp [dispatchInvocations]
    rw [hstep, List.filter_append, filter_eventInvocations, ih]
    by_cases h : x = E
    · subst h
      simp [List.count_cons, List.replicate_succ]
    · simp [List.count_cons, h]

/-- A registry snapshot with no bucket matching the event's kind performs no
invocation for it. -/
theorem eventInvocations_nil_of_no_match [DecidableEq EventType]
    (listeners : List (EventType × List (Callback EventType Payload)))
    (E : QuEvent EventType Payload) :
    (∀ b ∈ listeners, E.m_event_type ≠ b.1) → eventInvocations listeners E = [] := by
  induction listeners with
  | nil => intro _; rfl
  | cons b rest ih =>
    intro h
    have hb : E.m_event_type ≠ b.1 := h b (by simp)
    have hrest : ∀ b2 ∈ rest, E.m_event_type ≠ b2.1 := fun b2 hb2 => h b2 (by simp [hb2])
    simp only [eventInvocations, List.flatMap_cons] at *
    rw [show bucketInvocations E b = [] from by unfold bucketInvocations; rw [if_neg hb]]
    rw [List.nil_append]
    exact ih hrest

/-- With pairwise-distinct registry kinds, an event's invocation block is
exactly the unique matching bucket's callbacks, in bucket order. -/
theorem eventInvocations_eq_of_nodup [DecidableEq EventType]
    (listeners : List (EventType × List (Callback EventType Payload)))
    (K : EventType) (cbs : List (Callback EventType Payload))
    (E : QuEvent EventType Payload) :
    (listeners.map Prod.fst).Nodup → (K, cbs) ∈ listeners → E.m_event_type = K →
      eventInvocations listeners E = cbs.map (fun cb => (K, cb.id, E)) := by
  induction listeners with
  | nil =>
    intro _ hmem _
    simp at hmem
  | cons b rest ih =>
    intro hnd hmem hk
    simp only [List.map_cons, List.nodup_cons] at hnd
    obtain ⟨hb_nin, hnd_rest⟩ := hnd
    simp only [eventInvocations, List.flatMap_cons]
    rcases List.mem_cons.mp hmem with hhead | htail
    · have hb1 : b.1 = K := by rw [← hhead]
      have hb2 : b.2 = cbs := by rw [← hhead]
      have hrest_nil : rest.flatMap (bucketInvocations E) = [] := by
        refine eventInvocations_nil_of_no_match rest E ?_
        intro b2 hb2m
        rw [hk]
        intro hKb2
        apply hb_nin
        rw [hb1, hKb2]
        exact List.mem_map.mpr ⟨b2, hb2m, rfl⟩
      rw [hrest_nil, List.append_nil]
      unfold bucketInvocations
      rw [if_pos (by rw [hk, hb1])]
      rw [hb1, hb2]
    · have hKrest : K ∈ rest.map Prod.fst := List.mem_map.mpr ⟨(K, cbs), htail, rfl⟩
      have hb1 : E.m_event_type ≠ b.1 := by
        rw [hk]
        intro hKb
        apply hb_nin
        rw [← hKb]
        exact hKrest
      rw [show bucketInvocations E b = [] from by unfold bucketInvocations; rw [if_neg hb1]]
      rw [List.nil_append]
      exact ih hnd_rest htail hk

/-! Helper lemmas about the registration loop. -/

/-- Registering an unseen kind appends exactly one fresh bucket. -/
theorem insertListener_not_mem [DecidableEq EventType]
    (listeners : List (EventType × List (Callback EventType Payload)))
    (k : EventType) (cb : Callback EventType Payload) :
    k ∉ listeners.map Prod.fst →
      insertListener listeners k cb = listeners ++ [(k, [cb])] := by
  induction listeners with
  | nil => intro _; rfl
  | cons b rest ih =>
    intro h
    have hb : b.1 ≠ k := fun hbk => h (by simp [← hbk])
    have hrest : k ∉ rest.map Prod.fst := fun hk => h (by simp [hk])
    simp only [insertListener, if_neg hb, List.cons_append]
    rw [ih hrest]

/-- Registering an already-present kind leaves the kind column unchanged. -/
theorem insertListener_map_fst_of_mem [DecidableEq EventType]
    (listeners : List (EventType × List (Callback EventType Payload)))
    (k : EventType) (cb : Callback EventType Payload) :
    k ∈ listeners.map Prod.fst →
      (insertListener listeners k cb).map Prod.fst = listeners.map Prod.fst := by
  induction listeners with
  | nil => intro h; simp at h
  | cons b rest ih =>
    intro h
    by_cases hb : b.1 = k
    · simp [insertListener, hb]
    · have hrest : k ∈ rest.map Prod.fst := by
        rw [List.map_cons] at h
        rcases List.mem_cons.mp h with hhd | htl
        · exact absurd hhd.symm hb
        · exact htl
      simp only [insertListener, if_neg hb, List.map_cons]
      rw [ih hrest]

/-- Registration preserves distinctness of the registry's kinds. -/
theorem insertListener_nodup [DecidableEq EventType]
    (listeners : List (EventType × List (Callback EventType Payload)))
    (k : EventType) (cb : Callback EventType Payload) :
    (listeners.map Prod.fst).Nodup →
      ((insertListener listeners k cb).map Prod.fst).Nodup := by
  intro h
  by_cases hk : k ∈ listeners.map Prod.fst
  · rw [insertListener_map_fst_of_mem _ _ _ hk]
    exact h
  · rw [insertListener_not_mem _ _ _ hk, List.map_append]
    simp only [List.map_cons, List.map_nil]
    rw [List.nodup_append]
    refine ⟨h, List.nodup_singleton k, ?_⟩
    intro a ha hmem
    rw [List.mem_singleton.mp hmem] at ha
    exact hk ha

/-- Registration appends the callback at the end of the kind's bucket. -/
theorem listenersFor_insert_self [DecidableEq EventType]
    (listeners : List (EventType × List (Callback EventType Payload)))
    (k : EventType) (cb : Callback EventType Payload) :
    listenersFor k (insertListener listeners k cb)
      = listenersFor k listeners ++ [cb] := by
  induction listeners with
  | nil => simp [insertListener, listenersFor]
  | cons b rest ih =>
    by_cases hb : b.1 = k
    · simp [insertListener, listenersFor, hb]
    · simp [insertListener, listenersFor, hb, ih]

/-- Registration leaves the buckets of every other kind unchanged. -/
theorem listenersFor_insert_other [DecidableEq EventType]
    (listeners : List (EventType × List (Callback EventType Payload)))
    (k k2 : EventType) (cb : Callback EventType Payload) :
    k2 ≠ k →
      listenersFor k2 (insertListener listeners k cb)
        = listenersFor k2 listeners := by
  intro hne
  have hkk2 : k ≠ k2 := Ne.symm hne
  induction listeners with
  | nil => simp [insertListener, listenersFor, hkk2]
  | cons b rest ih =>
    by_cases hb : b.1 = k
    · simp [insertListener, listenersFor, hb, hkk2]
    · by_cases hb2 : b.1 = k2
      · simp [insertListener, listenersFor, hb, hb2, hne]
      · simp [insertListener, listenersFor, hb, hb2, hne, ih]

/-- After registration the registry holds a bucket for the registered kind
containing the registered callback. -/
theorem insertListener_self_mem [DecidableEq EventType]
    (listeners : List (EventType × List (Callback EventType Payload)))
    (k : EventType) (cb : Callback EventType Payload) :
    ∃ cbs, (k, cbs) ∈ insertListener listeners k cb ∧ cb.id ∈ cbs.map Callback.id := by
  induction listeners with
  | nil => exact ⟨[cb], by simp [insertListener], by simp⟩
  | cons b rest ih =>
    by_cases hb : b.1 = k
    · refine ⟨b.2 ++ [cb], ?_, by simp⟩
      have hstep : insertListener (b :: rest) k cb = (b.1, b.2 ++ [cb]) :: rest := by
        simp [insertListener, hb]
      rw [hstep, hb]
      exact List.mem_cons_self _ _
    · obtain ⟨cbs, hmem, hid⟩ := ih
      refine ⟨cbs, ?_, hid⟩
      have hstep : insertListener (b :: rest) k cb = b :: insertListener rest k cb := by
        simp [insertListener, hb]
      rw [hstep]
      exact List.mem_cons_of_mem _ hmem

/-- A fold of direct `push_event` calls never touches the temporary queue. -/
theorem foldl_push_event_tmp (self : EventManager EventType Payload)
    (extra : List (QuEvent EventType Payload)) :
    (extra.foldl (fun st e => st.push_event e) self).m_tmp_event_queue
      = self.m_tmp_event_queue := by
  induction extra generalizing self with
  | nil => rfl
  | cons x xs ih => exact ih (self.push_event x)

/-! Concrete values used to instantiate theorems with hypotheses. -/

/-- A concrete callback (id 1) that defers nothing. -/
def wCb1 : Callback Nat Nat := ⟨1, fun _ => []⟩

/-- A concrete callback (id 2) that defers nothing. -/
def wCb2 : Callback Nat Nat := ⟨2, fun _ => []⟩

/-- A concrete event of kind 0 with payload 5. -/
def wE : QuEvent Nat Nat := ⟨0, 5⟩

/-- A concrete manager: one pending event of kind 0, one registry bucket for
kind 0 holding the two callbacks in registration order. -/
def wM : EventManager Nat Nat where
  m_event_list := [wE]
  m_register_event_listeners := [(0, [wCb1, wCb2])]
  m_need_update := false
  m_notify_count := 0
  m_stop_update := false
  m_tmp_event_queue := []

/-- A concrete audio-information record. -/
def wAudio : AudioInformation :=
  ⟨"name", "flac", "artist", "1", "album", "2023", "180", 44100, 2, 16⟩

/-! The claims. -/

/-- C1: for every event E of kind K placed in the pending queue (here:
present exactly once), and every bucket of n listeners registered for K
before the batch's snapshot, one `update` call invokes each of the n
listeners exactly once with E, in registration order: the sub-trace of the
batch concerning E is exactly the bucket's callbacks in bucket order. -/
theorem dispatch_exact_once [DecidableEq EventType] [DecidableEq Payload]
    (self : EventManager EventType Payload) (K : EventType)
    (cbs : List (Callback EventType Payload)) (E : QuEvent EventType Payload)
    (hnd : (self.m_register_event_listeners.map Prod.fst).Nodup)
    (hbucket : (K, cbs) ∈ self.m_register_event_listeners)
    (hcount : self.m_event_list.count E = 1)
    (hkind : E.m_event_type = K) :
    self.update.2.filter (fun p => p.2.2 = E)
      = cbs.map (fun cb => (K, cb.id, E)) := by
  have h1 : self.update.2
      = dispatchInvocations self.m_register_event_listeners self.m_event_list := rfl
  rw [h1, filter_dispatchInvocations, hcount]
  simp only [List.replicate_succ, List.replicate_zero, List.flatten_cons,
    List.flatten_nil, List.append_nil]
  exact eventInvocations_eq_of_nodup _ K cbs E hnd hbucket hkind

/-- Witness for C1 at the concrete manager `wM`. -/
theorem dispatch_exact_once_witness :
    wM.update.2.filter (fun p => p.2.2 = wE)
      = [wCb1, wCb2].map (fun cb => ((0 : Nat), cb.id, wE)) :=
  dispatch_exact_once wM 0 [wCb1, wCb2] wE (by decide)
    (show (0, [wCb1, wCb2]) ∈ [((0 : Nat), [wCb1, wCb2])] from
      List.mem_singleton.mpr rfl)
    (by decide) rfl

/-- C2: the dispatch step invokes a registered callback with an event if and
only if the event's kind and the kind the callback was registered under
compare equal (and the event is in the pending snapshot); in particular a
listener registered only for kind K is never invoked for an event of a
different kind. -/
theorem dispatch_iff_kinds_equal [DecidableEq EventType]
    (self : EventManager EventType Payload) (K : EventType) (i : Nat)
    (e : QuEvent EventType Payload) :
    (K, i, e) ∈ self.update.2 ↔
      e ∈ self.m_event_list ∧ e.m_event_type = K ∧
        ∃ cbs, (K, cbs) ∈ self.m_register_event_listeners ∧ i ∈ cbs.map Callback.id :=
  mem_dispatchInvocations

/-- C3: every invocation of batch N carries an event of the pending
snapshot (so an event only placed in the deferred queue during batch N is
delivered to no listener in batch N); at the end of the batch the pending
queue is exactly the deferred-queue content in order, and the deferred
queue is cleared — so the deferred events are pending at the start of batch
N+1. -/
theorem deferred_events_next_batch [DecidableEq EventType]
    (self : EventManager EventType Payload) :
    (∀ p ∈ self.update.2, p.2.2 ∈ self.m_event_list) ∧
    self.update.1.m_event_list
      = self.m_tmp_event_queue
        ++ dispatchPushes self.m_register_event_listeners self.m_event_list ∧
    self.update.1.m_tmp_event_queue = [] := by
  refine ⟨?_, rfl, rfl⟩
  intro p hp
  exact invocation_event_mem hp

/-- C4: `register_listener` preserves the at-most-one-bucket-per-kind
invariant; registering an absent kind appends exactly one new bucket, and
registering a present kind appends to that kind's single ordered bucket
while leaving the kind column and every other bucket unchanged. -/
theorem register_listener_bucket_invariant [DecidableEq EventType]
    (self : EventManager EventType Payload) (k : EventType)
    (cb : Callback EventType Payload)
    (hnd : (self.m_register_event_listeners.map Prod.fst).Nodup) :
    ((self.register_listener k cb).m_register_event_listeners.map Prod.fst).Nodup ∧
    (k ∉ self.m_register_event_listeners.map Prod.fst →
      (self.register_listener k cb).m_register_event_listeners
        = self.m_register_event_listeners ++ [(k, [cb])]) ∧
    (k ∈ self.m_register_event_listeners.map Prod.fst →
      (self.register_listener k cb).m_register_event_listeners.map Prod.fst
        = self.m_register_event_listeners.map Prod.fst) ∧
    listenersFor k (self.register_listener k cb).m_register_event_listeners
      = listenersFor k self.m_register_event_listeners ++ [cb] ∧
    (∀ k2, k2 ≠ k →
      listenersFor k2 (self.register_listener k cb).m_register_event_listeners
        = listenersFor k2 self.m_register_event_listeners) :=
  ⟨insertListener_nodup _ _ _ hnd,
   insertListener_not_mem _ _ _,
   insertListener_map_fst_of_mem _ _ _,
   listenersFor_insert_self _ _ _,
   fun k2 h => listenersFor_insert_other self.m_register_event_listeners k k2 cb h⟩

/-- Witness for C4 at the concrete manager `wM`. -/
theorem register_listener_bucket_invariant_witness :
    ((wM.register_listener 0 wCb2).m_register_event_listeners.map Prod.fst).Nodup :=
  (register_listener_bucket_invariant wM 0 wCb2 (by decide)).1

/-- C5: `stop` sets the stop flag to true and changes nothing else: the wake
flag, the notify count, the pending queue, the deferred queue and the
registry are untouched. -/
theorem stop_only_sets_stop_flag (self : EventManager EventType Payload) :
    self.stop.m_stop_update = true ∧
    self.stop.m_need_update = self.m_need_update ∧
    self.stop.m_notify_count = self.m_notify_count ∧
    self.stop.m_event_list = self.m_event_list ∧
    self.stop.m_tmp_event_queue = self.m_tmp_event_queue ∧
    self.stop.m_register_event_listeners = self.m_register_event_listeners :=
  ⟨rfl, rfl, rfl, rfl, rfl, rfl⟩

/-- C6: the deferred-publish operation appends the event at the end of the
temporary queue and changes nothing else: the pending queue, the registry,
the wake flag, the notify count and the stop flag are untouched. -/
theorem push_event_in_tmp_queue_frame (event : QuEvent EventType Payload)
    (self : EventManager EventType Payload) :
    (push_event_in_tmp_queue event self).m_tmp_event_queue
      = self.m_tmp_event_queue ++ [event] ∧
    (push_event_in_tmp_queue event self).m_event_list = self.m_event_list ∧
    (push_event_in_tmp_queue event self).m_register_event_listeners
      = self.m_register_event_listeners ∧
    (push_event_in_tmp_queue event self).m_need_update = self.m_need_update ∧
    (push_event_in_tmp_queue event self).m_notify_count = self.m_notify_count ∧
    (push_event_in_tmp_queue event self).m_stop_update = self.m_stop_update :=
  ⟨rfl, rfl, rfl, rfl, rfl, rfl⟩

/-- C7: `register_listener` sets the wake flag to true and notifies the
wake condition, leaves the pending queue unchanged, and in the next
dispatch batch every already-pending event of the registered kind is
delivered to the freshly registered listener without any further publish
call. -/
theorem register_wakes_and_delivers [DecidableEq EventType]
    (self : EventManager EventType Payload) (k : EventType)
    (cb : Callback EventType Payload) :
    (self.register_listener k cb).m_need_update = true ∧
    (self.register_listener k cb).m_notify_count = self.m_notify_count + 1 ∧
    (self.register_listener k cb).m_event_list = self.m_event_list ∧
    ∀ e ∈ self.m_event_list, e.m_event_type = k →
      (k, cb.id, e) ∈ (self.register_listener k cb).update.2 := by
  refine ⟨rfl, rfl, rfl, ?_⟩
  intro e he hk
  apply mem_dispatchInvocations.mpr
  obtain ⟨cbs, hmem, hid⟩ := insertListener_self_mem self.m_register_event_listeners k cb
  exact ⟨he, hk, cbs, hmem, hid⟩

/-- C8: when the payload's key map has a field count other than one, the
metadata-extraction listener returns at once: it reads no file and places
no event in the deferred queue. -/
theorem audio_listener_noop_on_bad_field_count
    (read_information : String → AudioInformation)
    (argument : List (String × QuAvailableTypeInEvent × String))
    (h : argument.length ≠ 1) :
    audio_listener_body read_information argument = ([], []) := by
  unfold audio_listener_body
  rw [if_pos h]

/-- Witness for C8 at an empty key map. -/
theorem audio_listener_noop_witness :
    audio_listener_body (fun _ => wAudio) [] = ([], []) :=
  audio_listener_noop_on_bad_field_count (fun _ => wAudio) [] (by decide)

/-- C9: `convert_to_key_map` on any `AudioInformation` yields exactly the
ten fields music_name, music_type, artist_name, track_number, album, date,
duration, track_rate, channel_count, bits_per_sample, in that order, every
value a string and the numeric fields rendered as their decimal string
representation. -/
theorem convert_to_key_map_fields (a : AudioInformation) :
    a.convert_to_key_map =
      [("music_name", QuAvailableTypeInEvent.String, a.m_str_music_name),
       ("music_type", QuAvailableTypeInEvent.String, a.m_str_music_type),
       ("artist_name", QuAvailableTypeInEvent.String, a.m_str_artist_name),
       ("track_number", QuAvailableTypeInEvent.String, a.m_str_tracknumber),
       ("album", QuAvailableTypeInEvent.String, a.m_str_album),
       ("date", QuAvailableTypeInEvent.String, a.m_str_date),
       ("duration", QuAvailableTypeInEvent.String, a.m_str_duration),
       ("track_rate", QuAvailableTypeInEvent.String, Nat.repr a.m_rate),
       ("channel_count", QuAvailableTypeInEvent.String, Nat.repr a.m_channel_count),
       ("bits_per_sample", QuAvailableTypeInEvent.String, Nat.repr a.m_bits_per_sample)] :=
  rfl

/-- C10: direct `push_event` calls landing on the live pending queue after
the batch's snapshot and before the end-of-batch clear are erased by the
clear and appear nowhere: the resulting pending queue, deferred queue and
invocation trace equal those of the undisturbed batch, the trace only
carries snapshot events, and the resulting pending queue is exactly the
deferred-queue content in order. -/
theorem midbatch_push_erased [DecidableEq EventType]
    (self : EventManager EventType Payload)
    (extra : List (QuEvent EventType Payload)) :
    (self.update_with_midbatch_push extra).1.m_event_list
      = self.update.1.m_event_list ∧
    (self.update_with_midbatch_push extra).2 = self.update.2 ∧
    (self.update_with_midbatch_push extra).1.m_tmp_event_queue = [] ∧
    (self.update_with_midbatch_push extra).1.m_event_list
      = self.m_tmp_event_queue
        ++ dispatchPushes self.m_register_event_listeners self.m_event_list ∧
    (∀ p ∈ (self.update_with_midbatch_push extra).2, p.2.2 ∈ self.m_event_list) := by
  have htmp := foldl_push_event_tmp self extra
  refine ⟨?_, rfl, rfl, ?_, ?_⟩
  · show (extra.foldl (fun st e => st.push_event e) self).m_tmp_event_queue
        ++ dispatchPushes self.m_register_event_listeners self.m_event_list
      = self.m_tmp_event_queue
        ++ dispatchPushes self.m_register_event_listeners self.m_event_list
    rw [htmp]
  · show (extra.foldl (fun st e => st.push_event e) self).m_tmp_event_queue
        ++ dispatchPushes self.m_register_event_listeners self.m_event_list
      = self.m_tmp_event_queue
        ++ dispatchPushes self.m_register_event_listeners self.m_event_list
    rw [htmp]
  · intro p hp
    exact invocation_event_mem hp

end Quadrium
